import Mathlib

/-!
Verification of the polargraph PNG-to-SVG converter
(`polargraph_convert.py`, class `PolargraphConverter`).

The Python floats are modelled by real numbers (`ℝ`) and `math.sin` by
`Real.sin`; pixel brightnesses and coordinates are natural numbers as in the
source.  A pixel grid is modelled as a function `ℕ → ℕ → ℕ` giving the
brightness at `(x, row)`, mirroring `pixels[x, row]`.
-/

namespace Polargraph

/-- Wave modulation constants of `PolargraphConverter`. -/
def MIN_DARKNESS_THRESHOLD : ℝ := 0.02

def FREQUENCY_BASE : ℝ := 0.5

def FREQUENCY_SCALE : ℝ := 1.5

def ORGANIC_X_FREQUENCY : ℝ := 0.05

def ORGANIC_Y_FREQUENCY : ℝ := 0.1

def ORGANIC_NOISE_SCALE : ℝ := 0.2

def ORGANIC_AMPLITUDE_VAR : ℝ := 0.3

def ORGANIC_FREQUENCY_VAR : ℝ := 0.2

def WAVE_FREQUENCY_SCALE : ℝ := 0.1

/-- The converter's configuration (`__init__` parameters that the core uses;
`contrast_factor` only affects the out-of-scope preprocessing stage). -/
structure ConversionConfig where
  line_spacing : ℝ
  max_amplitude : ℝ
  organic_mode : Bool
  white_threshold : ℕ

/-- `PolargraphConverter.calculate_wave_params` (lines 86–115): amplitude and
frequency factor from darkness, with optional organic perturbation. -/
noncomputable def calculate_wave_params (cfg : ConversionConfig)
    (darkness : ℝ) (x row : ℕ) : ℝ × ℝ :=
  if darkness < MIN_DARKNESS_THRESHOLD then
    (0.0, 0.0)
  else
    let amplitude := cfg.max_amplitude * darkness
    let frequency_factor := FREQUENCY_BASE + darkness * FREQUENCY_SCALE
    if cfg.organic_mode then
      let organic_noise :=
        Real.sin ((x : ℝ) * ORGANIC_X_FREQUENCY + (row : ℝ) * ORGANIC_Y_FREQUENCY)
          * ORGANIC_NOISE_SCALE
      (amplitude * (1.0 + organic_noise * ORGANIC_AMPLITUDE_VAR),
       frequency_factor * (1.0 + organic_noise * ORGANIC_FREQUENCY_VAR))
    else
      (amplitude, frequency_factor)

/-- One iteration of the `for x in range(width)` loop body of
`PolargraphConverter.generate_row_path` (lines 135–157): either the
white-pixel branch with its de-duplication test
`len(points) == 0 or points[-1][1] != y_base`, or the dark-pixel branch
appending the sine-modulated point unconditionally. -/
noncomputable def row_step (cfg : ConversionConfig) (grid : ℕ → ℕ → ℕ)
    (row : ℕ) (points : List (ℝ × ℝ)) (x : ℕ) : List (ℝ × ℝ) :=
  let y_base : ℝ := (row : ℝ) * cfg.line_spacing
  let brightness := grid x row
  if cfg.white_threshold ≤ brightness then
    match points.getLast? with
    | none => points ++ [((x : ℝ), y_base)]
    | some p => if p.2 = y_base then points else points ++ [((x : ℝ), y_base)]
  else
    let darkness : ℝ := 1.0 - (brightness : ℝ) / 255.0
    let wp := calculate_wave_params cfg darkness x row
    let wave_offset := wp.1 * Real.sin ((x : ℝ) * wp.2 * WAVE_FREQUENCY_SCALE)
    points ++ [((x : ℝ), y_base + wave_offset)]

/-- `PolargraphConverter.generate_row_path` (lines 117–159): the points
accumulated by the row loop, starting from the empty list. -/
noncomputable def generate_row_path (cfg : ConversionConfig) (grid : ℕ → ℕ → ℕ)
    (row width : ℕ) : List (ℝ × ℝ) :=
  (List.range width).foldl (row_step cfg grid row) []

theorem generate_row_path_zero (cfg : ConversionConfig) (grid : ℕ → ℕ → ℕ)
    (row : ℕ) : generate_row_path cfg grid row 0 = [] := rfl

theorem generate_row_path_succ (cfg : ConversionConfig) (grid : ℕ → ℕ → ℕ)
    (row w : ℕ) :
    generate_row_path cfg grid row (w + 1) =
      row_step cfg grid row (generate_row_path cfg grid row w) w := by
  simp [generate_row_path, List.range_succ]

theorem calculate_wave_params_below (cfg : ConversionConfig) (darkness : ℝ)
    (x row : ℕ) (h : darkness < MIN_DARKNESS_THRESHOLD) :
    calculate_wave_params cfg darkness x row = (0.0, 0.0) := by
  simp [calculate_wave_params, h]

theorem calculate_wave_params_plain (cfg : ConversionConfig) (darkness : ℝ)
    (x row : ℕ) (h : ¬ darkness < MIN_DARKNESS_THRESHOLD)
    (ho : cfg.organic_mode = false) :
    calculate_wave_params cfg darkness x row =
      (cfg.max_amplitude * darkness, FREQUENCY_BASE + darkness * FREQUENCY_SCALE) := by
  simp [calculate_wave_params, h, ho]

theorem calculate_wave_params_organic (cfg : ConversionConfig) (darkness : ℝ)
    (x row : ℕ) (h : ¬ darkness < MIN_DARKNESS_THRESHOLD)
    (ho : cfg.organic_mode = true) :
    calculate_wave_params cfg darkness x row =
      (cfg.max_amplitude * darkness *
         (1.0 + Real.sin ((x : ℝ) * ORGANIC_X_FREQUENCY + (row : ℝ) * ORGANIC_Y_FREQUENCY)
            * ORGANIC_NOISE_SCALE * ORGANIC_AMPLITUDE_VAR),
       (FREQUENCY_BASE + darkness * FREQUENCY_SCALE) *
         (1.0 + Real.sin ((x : ℝ) * ORGANIC_X_FREQUENCY + (row : ℝ) * ORGANIC_Y_FREQUENCY)
            * ORGANIC_NOISE_SCALE * ORGANIC_FREQUENCY_VAR)) := by
  simp [calculate_wave_params, h, ho, mul_assoc]

theorem row_step_white_nil (cfg : ConversionConfig) (grid : ℕ → ℕ → ℕ)
    (row x : ℕ) (h : cfg.white_threshold ≤ grid x row) :
    row_step cfg grid row [] x = [((x : ℝ), (row : ℝ) * cfg.line_spacing)] := by
  simp [row_step, h]

theorem row_step_white_eq (cfg : ConversionConfig) (grid : ℕ → ℕ → ℕ)
    (row x : ℕ) (points : List (ℝ × ℝ)) (p : ℝ × ℝ)
    (h : cfg.white_threshold ≤ grid x row) (hl : points.getLast? = some p)
    (hy : p.2 = (row : ℝ) * cfg.line_spacing) :
    row_step cfg grid row points x = points := by
  simp [row_step, h, hl, hy]

theorem row_step_white_ne (cfg : ConversionConfig) (grid : ℕ → ℕ → ℕ)
    (row x : ℕ) (points : List (ℝ × ℝ)) (p : ℝ × ℝ)
    (h : cfg.white_threshold ≤ grid x row) (hl : points.getLast? = some p)
    (hy : p.2 ≠ (row : ℝ) * cfg.line_spacing) :
    row_step cfg grid row points x =
      points ++ [((x : ℝ), (row : ℝ) * cfg.line_spacing)] := by
  simp [row_step, h, hl, hy]

theorem row_step_dark (cfg : ConversionConfig) (grid : ℕ → ℕ → ℕ)
    (row x : ℕ) (points : List (ℝ × ℝ)) (h : grid x row < cfg.white_threshold) :
    row_step cfg grid row points x =
      points ++ [((x : ℝ),
        (row : ℝ) * cfg.line_spacing +
          (calculate_wave_params cfg (1.0 - (grid x row : ℝ) / 255.0) x row).1 *
            Real.sin ((x : ℝ) *
              (calculate_wave_params cfg (1.0 - (grid x row : ℝ) / 255.0) x row).2 *
              WAVE_FREQUENCY_SCALE))] := by
  simp [row_step, Nat.not_le.mpr h]

/-- Each loop iteration either leaves the accumulated points unchanged or
appends a single point whose x-coordinate is the current column. -/
theorem row_step_eq_or_concat (cfg : ConversionConfig) (grid : ℕ → ℕ → ℕ)
    (row x : ℕ) (points : List (ℝ × ℝ)) :
    row_step cfg grid row points x = points ∨
      ∃ y : ℝ, row_step cfg grid row points x = points ++ [((x : ℝ), y)] := by
  by_cases hw : cfg.white_threshold ≤ grid x row
  · rcases hl : points.getLast? with _ | p
    · right
      exact ⟨(row : ℝ) * cfg.line_spacing, by simp [row_step, hw, hl]⟩
    · by_cases hy : p.2 = (row : ℝ) * cfg.line_spacing
      · left; exact row_step_white_eq cfg grid row x points p hw hl hy
      · right
        exact ⟨(row : ℝ) * cfg.line_spacing,
          row_step_white_ne cfg grid row x points p hw hl hy⟩
  · right
    exact ⟨_, row_step_dark cfg grid row x points (Nat.not_le.mp hw)⟩

theorem row_step_ne_nil (cfg : ConversionConfig) (grid : ℕ → ℕ → ℕ)
    (row x : ℕ) (points : List (ℝ × ℝ)) :
    row_step cfg grid row points x ≠ [] := by
  rcases points with _ | ⟨p, rest⟩
  · rcases row_step_eq_or_concat cfg grid row x [] with h | ⟨y, h⟩
    · rw [h]
      by_cases hw : cfg.white_threshold ≤ grid x row
      · simp [row_step, hw] at h
      · rw [row_step_dark cfg grid row x [] (Nat.not_le.mp hw)] at h
        simp at h
    · simp [h]
  · rcases row_step_eq_or_concat cfg grid row x (p :: rest) with h | ⟨y, h⟩ <;>
      simp [h]

theorem generate_row_path_ne_nil (cfg : ConversionConfig) (grid : ℕ → ℕ → ℕ)
    (row width : ℕ) (hw : 1 ≤ width) :
    generate_row_path cfg grid row width ≠ [] := by
  obtain ⟨n, rfl⟩ : ∃ n, width = n + 1 :=
    ⟨width - 1, (Nat.succ_pred_eq_of_pos hw).symm⟩
  rw [generate_row_path_succ]
  exact row_step_ne_nil cfg grid row n _

/-- Loop invariant of the row loop: after processing columns `0..width-1` the
accumulated list has at most `width` points, every x-coordinate is the cast of
a column below `width`, and the x-coordinates are strictly increasing. -/
theorem generate_row_path_invariant (cfg : ConversionConfig)
    (grid : ℕ → ℕ → ℕ) (row : ℕ) : ∀ width : ℕ,
    (generate_row_path cfg grid row width).length ≤ width ∧
    (∀ p ∈ generate_row_path cfg grid row width, p.1 < (width : ℝ)) ∧
    ((generate_row_path cfg grid row width).map Prod.fst).Chain' (· < ·) := by
  intro width
  induction width with
  | zero => simp [generate_row_path_zero]
  | succ n ih =>
      obtain ⟨hlen, hbound, hchain⟩ := ih
      rw [generate_row_path_succ]
      rcases row_step_eq_or_concat cfg grid row n
          (generate_row_path cfg grid row n) with h | ⟨y, h⟩ <;> rw [h]
      · refine ⟨hlen.trans (Nat.le_succ n), fun p hp => ?_, hchain⟩
        exact (hbound p hp).trans (by exact_mod_cast Nat.lt_succ_self n)
      · refine ⟨by simpa using Nat.succ_le_succ hlen, fun p hp => ?_, ?_⟩
        · rcases List.mem_append.mp hp with hp | hp
          · exact (hbound p hp).trans (by exact_mod_cast Nat.lt_succ_self n)
          · simp only [List.mem_singleton] at hp
            subst hp
            have hn : ((n : ℕ) : ℝ) < ((n + 1 : ℕ) : ℝ) := by
              exact_mod_cast Nat.lt_succ_self n
            exact hn
        · rw [List.map_append]
          refine List.chain'_append.mpr ⟨hchain, by simp, ?_⟩
          intro a ha b hb
          simp only [List.map_cons, List.map_nil, List.head?_cons,
            Option.mem_def, Option.some.injEq] at hb
          subst hb
          rcases List.mem_getLast?_eq_getLast ha with ⟨hne, hget⟩
          subst hget
          have hmem := List.getLast_mem hne
          rcases List.mem_map.mp hmem with ⟨q, hq, hqa⟩
          rw [← hqa]
          exact hbound q hq

/-- Two decimal digits with a leading zero, the fractional part produced by
Python's `:.2f` format. -/
def pad2 (k : ℕ) : String :=
  if k < 10 then "0" ++ toString k else toString k

/-- Python's `f"{v:.2f}"` fixed-point formatting under real semantics: the
value is rounded to the nearest hundredth and printed with exactly two
fractional digits.  (CPython rounds the underlying binary double half-to-even;
on the real model we use `round`, which only differs on exact half-hundredths,
and the sign of a negative value rounding to zero is dropped.  No claim below
depends on those edge cases.) -/
noncomputable def fmt2 (x : ℝ) : String :=
  let n : ℤ := round (x * 100)
  let sign := if n < 0 then "-" else ""
  let m := n.natAbs
  sign ++ toString (m / 100) ++ "." ++ pad2 (m % 100)

/-- `PolargraphConverter.points_to_path_commands` (lines 161–181): a Move
command for the first point, a Line command per remaining point, joined by
single spaces; the empty list gives the empty string. -/
noncomputable def points_to_path_commands (points : List (ℝ × ℝ)) : String :=
  match points with
  | [] => ""
  | p :: rest =>
      String.intercalate " "
        (("M " ++ fmt2 p.1 ++ "," ++ fmt2 p.2) ::
          rest.map (fun q => "L " ++ fmt2 q.1 ++ "," ++ fmt2 q.2))

/-- The `<path .../>` line the row loop of `generate_svg` (lines 208–214)
contributes for one row: skipped when the row's point list is empty or its
path string is empty. -/
noncomputable def svg_row_line (cfg : ConversionConfig) (grid : ℕ → ℕ → ℕ)
    (width row : ℕ) : Option String :=
  let points := generate_row_path cfg grid row width
  if points = [] then none
  else
    let path_d := points_to_path_commands points
    if path_d = "" then none
    else some ("    <path d=\"" ++ path_d ++ "\"/>")

/-- The path elements of the document, in row order. -/
noncomputable def svg_path_lines (cfg : ConversionConfig) (grid : ℕ → ℕ → ℕ)
    (width height : ℕ) : List String :=
  (List.range height).filterMap (svg_row_line cfg grid width)

/-- The three header lines of `generate_svg` (lines 197–205), with
`svg_height = height * self.line_spacing` (line 194) formatted by `:.2f`. -/
noncomputable def svg_header (cfg : ConversionConfig) (width height : ℕ) :
    List String :=
  ["<?xml version=\"1.0\" encoding=\"UTF-8\"?>",
   "<svg xmlns=\"http://www.w3.org/2000/svg\" width=\"" ++ toString width ++
     "\" height=\"" ++ fmt2 ((height : ℝ) * cfg.line_spacing) ++
     "\" viewBox=\"0 0 " ++ toString width ++ " " ++
     fmt2 ((height : ℝ) * cfg.line_spacing) ++ "\">",
   "  <g id=\"polargraph-paths\" stroke=\"black\" stroke-width=\"0.5\" " ++
     "fill=\"none\" stroke-linecap=\"round\" stroke-linejoin=\"round\">"]

/-- `PolargraphConverter.generate_svg` (lines 183–224): the document text
written to the output file, `'\n'.join(svg_lines)`. -/
noncomputable def generate_svg (cfg : ConversionConfig) (grid : ℕ → ℕ → ℕ)
    (width height : ℕ) : String :=
  String.intercalate "\n"
    (svg_header cfg width height ++ svg_path_lines cfg grid width height ++
      ["  </g>", "</svg>"])

/-- Separator-prefixed concatenation: `joinSep s [a, b] = s ++ a ++ s ++ b`.
Used to state what `String.intercalate` does to the tail of a command list. -/
def joinSep (s : String) : List String → String
  | [] => ""
  | a :: l => s ++ a ++ joinSep s l

theorem intercalate_go_eq (s : String) (l : List String) :
    ∀ acc : String, String.intercalate.go acc s l = acc ++ joinSep s l := by
  induction l with
  | nil => intro acc; simp [String.intercalate.go, joinSep]
  | cons a l ih =>
      intro acc
      simp [String.intercalate.go, joinSep, ih, String.append_assoc]

theorem intercalate_cons (s a : String) (l : List String) :
    String.intercalate s (a :: l) = a ++ joinSep s l := by
  simp [String.intercalate, intercalate_go_eq]

/-! ### Claim theorems -/

/-- C1: for every darkness value in [0.02, 1.0] and every x and row, with
organic mode off, `calculate_wave_params` returns exactly
(maxAmplitude × darkness, 0.5 + 1.5 × darkness). -/
theorem wave_params_plain_exact (cfg : ConversionConfig) (darkness : ℝ)
    (x row : ℕ) (h1 : 0.02 ≤ darkness) (h2 : darkness ≤ 1.0)
    (ho : cfg.organic_mode = false) :
    calculate_wave_params cfg darkness x row =
      (cfg.max_amplitude * darkness, 0.5 + 1.5 * darkness) := by
  rw [calculate_wave_params_plain cfg darkness x row
    (not_lt.mpr (by simpa [MIN_DARKNESS_THRESHOLD] using h1)) ho]
  simp [FREQUENCY_BASE, FREQUENCY_SCALE, Prod.ext_iff, mul_comm]

def cfgPlain : ConversionConfig := ⟨2.0, 3.0, false, 250⟩

theorem wave_params_plain_exact_witness :
    (0.02 : ℝ) ≤ 0.5 ∧ (0.5 : ℝ) ≤ 1.0 ∧ cfgPlain.organic_mode = false ∧
      calculate_wave_params cfgPlain 0.5 3 4 =
        (cfgPlain.max_amplitude * 0.5, 0.5 + 1.5 * 0.5) :=
  ⟨by norm_num, by norm_num, rfl,
    wave_params_plain_exact cfgPlain 0.5 3 4 (by norm_num) (by norm_num) rfl⟩

/-- C4: for every darkness value < 0.02, every x, every row, and every
config (organic mode on or off), `calculate_wave_params` returns exactly
(0.0, 0.0). -/
theorem wave_params_below_threshold (cfg : ConversionConfig) (darkness : ℝ)
    (x row : ℕ) (h : darkness < 0.02) :
    calculate_wave_params cfg darkness x row = (0.0, 0.0) :=
  calculate_wave_params_below cfg darkness x row
    (by simpa [MIN_DARKNESS_THRESHOLD] using h)

def cfgOrganic : ConversionConfig := ⟨2.0, 3.0, true, 250⟩

theorem wave_params_below_threshold_witness :
    (0.01 : ℝ) < 0.02 ∧ calculate_wave_params cfgOrganic 0.01 5 7 = (0.0, 0.0) :=
  ⟨by norm_num, wave_params_below_threshold cfgOrganic 0.01 5 7 (by norm_num)⟩

def cfgNegAmp : ConversionConfig := ⟨2.0, -1.0, false, 250⟩

/-- C5 counterexample: with `max_amplitude = -1` (the claim quantifies over
"any maxAmplitude"), darkness 1 gives amplitude −1 < 0, so the claimed
nonnegativity of the first component fails. -/
theorem wave_params_nonneg_cex :
    ¬ 0 ≤ (calculate_wave_params cfgNegAmp 1.0 0 0).1 := by
  rw [calculate_wave_params_plain cfgNegAmp 1.0 0 0
    (by norm_num [MIN_DARKNESS_THRESHOLD]) rfl]
  norm_num [cfgNegAmp]

/-- C5 (amended): for every darkness ∈ [0, 1], every x, every row, and every
config with organic mode on or off and maxAmplitude ≥ 0, both components of
`calculate_wave_params` — amplitude and frequencyFactor — are ≥ 0. -/
theorem wave_params_nonneg (cfg : ConversionConfig) (darkness : ℝ)
    (x row : ℕ) (h0 : 0 ≤ darkness) (h1 : darkness ≤ 1)
    (hamp : 0 ≤ cfg.max_amplitude) :
    0 ≤ (calculate_wave_params cfg darkness x row).1 ∧
      0 ≤ (calculate_wave_params cfg darkness x row).2 := by
  by_cases hd : darkness < MIN_DARKNESS_THRESHOLD
  · rw [calculate_wave_params_below cfg darkness x row hd]
    norm_num
  · rcases horg : cfg.organic_mode with _ | _
    · rw [calculate_wave_params_plain cfg darkness x row hd horg]
      refine ⟨mul_nonneg hamp h0, ?_⟩
      simp only [FREQUENCY_BASE, FREQUENCY_SCALE]
      nlinarith
    · rw [calculate_wave_params_organic cfg darkness x row hd horg]
      have hs1 : -1 ≤ Real.sin ((x : ℝ) * ORGANIC_X_FREQUENCY +
          (row : ℝ) * ORGANIC_Y_FREQUENCY) := Real.neg_one_le_sin _
      have hs2 : Real.sin ((x : ℝ) * ORGANIC_X_FREQUENCY +
          (row : ℝ) * ORGANIC_Y_FREQUENCY) ≤ 1 := Real.sin_le_one _
      constructor
      · refine mul_nonneg (mul_nonneg hamp h0) ?_
        simp only [ORGANIC_NOISE_SCALE, ORGANIC_AMPLITUDE_VAR]
        nlinarith
      · refine mul_nonneg ?_ ?_
        · simp only [FREQUENCY_BASE, FREQUENCY_SCALE]
          nlinarith
        · simp only [ORGANIC_NOISE_SCALE, ORGANIC_FREQUENCY_VAR]
          nlinarith

theorem wave_params_nonneg_witness :
    (0 : ℝ) ≤ 1.0 ∧ (1.0 : ℝ) ≤ 1 ∧ 0 ≤ cfgOrganic.max_amplitude ∧
      (0 ≤ (calculate_wave_params cfgOrganic 1.0 2 9).1 ∧
        0 ≤ (calculate_wave_params cfgOrganic 1.0 2 9).2) :=
  ⟨by norm_num, by norm_num, by norm_num [cfgOrganic],
    wave_params_nonneg cfgOrganic 1.0 2 9 (by norm_num) (by norm_num)
      (by norm_num [cfgOrganic])⟩

theorem row_all_white_aux (cfg : ConversionConfig) (grid : ℕ → ℕ → ℕ)
    (row : ℕ) : ∀ n : ℕ,
    (∀ x, x < n + 1 → cfg.white_threshold ≤ grid x row) →
      generate_row_path cfg grid row (n + 1) =
        [((0 : ℝ), (row : ℝ) * cfg.line_spacing)] := by
  intro n
  induction n with
  | zero =>
      intro hwhite
      rw [generate_row_path_succ, generate_row_path_zero]
      simpa using row_step_white_nil cfg grid row 0 (hwhite 0 (by norm_num))
  | succ m ih =>
      intro hwhite
      rw [generate_row_path_succ,
        ih (fun x hx => hwhite x (Nat.lt_succ_of_lt hx))]
      exact row_step_white_eq cfg grid row (m + 1) _
        ((0 : ℝ), (row : ℝ) * cfg.line_spacing)
        (hwhite (m + 1) (Nat.lt_succ_self _)) (by simp) rfl

/-- C2: for every grid, every config, and every row of width ≥ 1 in which
every pixel's brightness is ≥ whiteThreshold, `generate_row_path` returns
exactly one point, located at (0, row × lineSpacing). -/
theorem row_all_white_single_point (cfg : ConversionConfig)
    (grid : ℕ → ℕ → ℕ) (row width : ℕ) (hw : 1 ≤ width)
    (hwhite : ∀ x, x < width → cfg.white_threshold ≤ grid x row) :
    generate_row_path cfg grid row width =
      [((0 : ℝ), (row : ℝ) * cfg.line_spacing)] := by
  obtain ⟨n, rfl⟩ : ∃ n, width = n + 1 :=
    ⟨width - 1, (Nat.succ_pred_eq_of_pos hw).symm⟩
  exact row_all_white_aux cfg grid row n hwhite

def gridWhite : ℕ → ℕ → ℕ := fun _ _ => 255

theorem row_all_white_single_point_witness :
    1 ≤ 4 ∧ (∀ x, x < 4 → cfgPlain.white_threshold ≤ gridWhite x 0) ∧
      generate_row_path cfgPlain gridWhite 0 4 =
        [((0 : ℝ), ((0 : ℕ) : ℝ) * cfgPlain.line_spacing)] :=
  ⟨by norm_num, by decide,
    row_all_white_single_point cfgPlain gridWhite 0 4 (by norm_num) (by decide)⟩

theorem row_all_dark_aux (cfg : ConversionConfig) (grid : ℕ → ℕ → ℕ)
    (row : ℕ) : ∀ width : ℕ,
    (∀ x, x < width → grid x row < cfg.white_threshold) →
      (generate_row_path cfg grid row width).map Prod.fst =
        (List.range width).map (Nat.cast : ℕ → ℝ) := by
  intro width
  induction width with
  | zero => intro _; simp [generate_row_path_zero]
  | succ n ih =>
      intro hdark
      rw [generate_row_path_succ,
        row_step_dark cfg grid row n _ (hdark n (Nat.lt_succ_self n)),
        List.map_append, ih (fun x hx => hdark x (Nat.lt_succ_of_lt hx)),
        List.range_succ, List.map_append]
      simp

/-- C6: for every grid, row, width, and config, the row path has length
≤ width and strictly increasing x-coordinates (hence non-decreasing), and
when no pixel of the row is at or above whiteThreshold its x-coordinates are
exactly 0, 1, …, width−1 in order (so the path has exactly width points). -/
theorem row_path_shape (cfg : ConversionConfig) (grid : ℕ → ℕ → ℕ)
    (row width : ℕ) :
    (generate_row_path cfg grid row width).length ≤ width ∧
      ((generate_row_path cfg grid row width).map Prod.fst).Chain' (· < ·) ∧
      ((∀ x, x < width → grid x row < cfg.white_threshold) →
        (generate_row_path cfg grid row width).map Prod.fst =
          (List.range width).map (Nat.cast : ℕ → ℝ)) :=
  ⟨(generate_row_path_invariant cfg grid row width).1,
    (generate_row_path_invariant cfg grid row width).2.2,
    row_all_dark_aux cfg grid row width⟩

def gridBlack : ℕ → ℕ → ℕ := fun _ _ => 0

theorem row_path_shape_witness :
    (generate_row_path cfgPlain gridBlack 0 3).length ≤ 3 ∧
      (generate_row_path cfgPlain gridBlack 0 3).map Prod.fst =
        (List.range 3).map (Nat.cast : ℕ → ℝ) :=
  ⟨(row_path_shape cfgPlain gridBlack 0 3).1,
    (row_path_shape cfgPlain gridBlack 0 3).2.2 (by decide)⟩

def cfg255 : ConversionConfig := ⟨2.0, 3.0, false, 255⟩

def grid254 : ℕ → ℕ → ℕ := fun x _ => if x = 1 then 254 else 255

/-- C3 counterexample: with whiteThreshold 255 the row 255, 254, 255 is a
white→dark→white transition, and the dark pixel's darkness 1/255 is below
0.02, so its point lands exactly at yBase; the second white pixel then emits
no flat point — the path ends after two points and contains no point for
column 2, contradicting the claim that the flat point is emitted "even when
the intervening dark pixel's point already sits at yBase". -/
theorem white_dark_white_cex :
    cfg255.white_threshold ≤ grid254 0 0 ∧
      grid254 1 0 < cfg255.white_threshold ∧
      cfg255.white_threshold ≤ grid254 2 0 ∧
      generate_row_path cfg255 grid254 0 3 = [((0 : ℝ), 0), ((1 : ℝ), 0)] ∧
      ((2 : ℝ), ((0 : ℕ) : ℝ) * cfg255.line_spacing) ∉
        generate_row_path cfg255 grid254 0 3 := by
  have hpath : generate_row_path cfg255 grid254 0 3 =
      [((0 : ℝ), 0), ((1 : ℝ), 0)] := by
    have h1 : generate_row_path cfg255 grid254 0 1 = [((0 : ℝ), 0)] := by
      rw [generate_row_path_succ, generate_row_path_zero,
        row_step_white_nil cfg255 grid254 0 0 (by decide)]
      norm_num
    have h2 : generate_row_path cfg255 grid254 0 2 =
        [((0 : ℝ), 0), ((1 : ℝ), 0)] := by
      rw [generate_row_path_succ, h1,
        row_step_dark cfg255 grid254 0 1 _ (by decide)]
      norm_num [grid254, cfg255, calculate_wave_params, MIN_DARKNESS_THRESHOLD]
    rw [generate_row_path_succ, h2,
      row_step_white_eq cfg255 grid254 0 2 _ ((1 : ℝ), 0) (by decide)
        (by rfl) (by norm_num [cfg255])]
  refine ⟨by decide, by decide, by decide, hpath, ?_⟩
  rw [hpath]
  norm_num [cfg255]

/-- C3 (amended): for every row and column x at which the pixel is white and
the immediately preceding emitted point's y differs from yBase — in
particular after a white→dark→white transition whose dark point has a
nonzero wave offset — `generate_row_path` emits a new flat point (x, yBase)
for that white pixel: the de-duplication check inspects only the immediately
preceding emitted point.  (The unamended claim fails when the dark point
itself sits exactly at yBase; see the counterexample.) -/
theorem white_emits_after_non_flat (cfg : ConversionConfig)
    (grid : ℕ → ℕ → ℕ) (row x : ℕ) (p : ℝ × ℝ)
    (hl : (generate_row_path cfg grid row x).getLast? = some p)
    (hy : p.2 ≠ (row : ℝ) * cfg.line_spacing)
    (hw : cfg.white_threshold ≤ grid x row) :
    generate_row_path cfg grid row (x + 1) =
      generate_row_path cfg grid row x ++
        [((x : ℝ), (row : ℝ) * cfg.line_spacing)] := by
  rw [generate_row_path_succ]
  exact row_step_white_ne cfg grid row x _ p hw hl hy

def gridWDW : ℕ → ℕ → ℕ := fun x _ => if x = 1 then 0 else 255

theorem white_emits_after_non_flat_witness :
    generate_row_path cfgPlain gridWDW 0 3 =
      generate_row_path cfgPlain gridWDW 0 2 ++
        [(((2 : ℕ) : ℝ), ((0 : ℕ) : ℝ) * cfgPlain.line_spacing)] := by
  have h1 : generate_row_path cfgPlain gridWDW 0 1 = [((0 : ℝ), 0)] := by
    rw [generate_row_path_succ, generate_row_path_zero,
      row_step_white_nil cfgPlain gridWDW 0 0 (by decide)]
    norm_num
  have h2 : generate_row_path cfgPlain gridWDW 0 2 =
      [((0 : ℝ), 0), ((1 : ℝ), 3 * Real.sin 0.2)] := by
    rw [generate_row_path_succ, h1,
      row_step_dark cfgPlain gridWDW 0 1 _ (by decide)]
    norm_num [gridWDW, cfgPlain, calculate_wave_params, MIN_DARKNESS_THRESHOLD,
      FREQUENCY_BASE, FREQUENCY_SCALE, WAVE_FREQUENCY_SCALE]
  have hsin : 0 < Real.sin 0.2 :=
    Real.sin_pos_of_pos_of_lt_pi (by norm_num)
      (lt_trans (by norm_num) Real.pi_gt_three)
  refine white_emits_after_non_flat cfgPlain gridWDW 0 2
    ((1 : ℝ), 3 * Real.sin 0.2) (by rw [h2]; rfl) ?_ (by decide)
  have h3 : (0 : ℝ) < 3 * Real.sin 0.2 := by nlinarith [hsin]
  simpa [cfgPlain] using ne_of_gt h3

/-- C7: whenever the most recently appended point's y is exactly yBase, an
immediately following white pixel appends no flat point — the de-duplication
check compares against the last point regardless of which branch produced
it; and the dark-pixel branch itself produces y = yBase for any non-white
pixel at column 0 (sin 0 = 0) and for any non-white pixel whose darkness is
below 0.02 (amplitude 0). -/
theorem dedup_checks_last_point (cfg : ConversionConfig)
    (grid : ℕ → ℕ → ℕ) (row x : ℕ) (p : ℝ × ℝ) :
    ((generate_row_path cfg grid row x).getLast? = some p →
      p.2 = (row : ℝ) * cfg.line_spacing →
      cfg.white_threshold ≤ grid x row →
      generate_row_path cfg grid row (x + 1) =
        generate_row_path cfg grid row x) ∧
    (grid 0 row < cfg.white_threshold →
      generate_row_path cfg grid row 1 =
        [((0 : ℝ), (row : ℝ) * cfg.line_spacing)]) ∧
    (grid x row < cfg.white_threshold →
      1.0 - (grid x row : ℝ) / 255.0 < 0.02 →
      generate_row_path cfg grid row (x + 1) =
        generate_row_path cfg grid row x ++
          [((x : ℝ), (row : ℝ) * cfg.line_spacing)]) := by
  refine ⟨fun hl hy hw => ?_, fun hdark => ?_, fun hdark hdn => ?_⟩
  · rw [generate_row_path_succ]
    exact row_step_white_eq cfg grid row x _ p hw hl hy
  · rw [generate_row_path_succ, generate_row_path_zero,
      row_step_dark cfg grid row 0 [] hdark]
    simp
  · rw [generate_row_path_succ,
      row_step_dark cfg grid row x _ hdark,
      calculate_wave_params_below cfg _ x row
        (by simpa [MIN_DARKNESS_THRESHOLD] using hdn)]
    norm_num

def gridC7 : ℕ → ℕ → ℕ := fun x _ => if x = 0 then 254 else 255

theorem dedup_checks_last_point_witness :
    generate_row_path cfg255 gridC7 0 2 = generate_row_path cfg255 gridC7 0 1 ∧
      generate_row_path cfg255 gridC7 0 1 =
        [((0 : ℝ), ((0 : ℕ) : ℝ) * cfg255.line_spacing)] ∧
      generate_row_path cfg255 gridC7 0 1 =
        generate_row_path cfg255 gridC7 0 0 ++
          [(((0 : ℕ) : ℝ), ((0 : ℕ) : ℝ) * cfg255.line_spacing)] := by
  have h2 := (dedup_checks_last_point cfg255 gridC7 0 0
      ((0 : ℝ), ((0 : ℕ) : ℝ) * cfg255.line_spacing)).2.1 (by decide)
  have h3 := (dedup_checks_last_point cfg255 gridC7 0 0
      ((0 : ℝ), ((0 : ℕ) : ℝ) * cfg255.line_spacing)).2.2 (by decide)
      (by norm_num [gridC7])
  have h1 := (dedup_checks_last_point cfg255 gridC7 0 1
      ((0 : ℝ), ((0 : ℕ) : ℝ) * cfg255.line_spacing)).1
      (by rw [h2]; rfl) rfl (by decide)
  exact ⟨h1, h2, h3⟩

theorem pad2_length (k : ℕ) (h : k < 100) : (pad2 k).length = 2 := by
  revert h
  revert k
  decide

theorem fmt2_shape (x : ℝ) :
    ∃ (s : String) (k : ℕ), k < 100 ∧ fmt2 x = s ++ "." ++ pad2 k ∧
      (pad2 k).length = 2 := by
  refine ⟨(if round (x * 100) < 0 then "-" else "") ++
      toString ((round (x * 100)).natAbs / 100),
    (round (x * 100)).natAbs % 100,
    Nat.mod_lt _ (by norm_num), by simp [fmt2],
    pad2_length _ (Nat.mod_lt _ (by norm_num))⟩

theorem fmt2_zero : fmt2 (0 : ℝ) = "0.00" := by
  have h : round ((0 : ℝ) * 100) = (0 : ℤ) := by norm_num
  simp only [fmt2, h]
  decide

/-- C9: `points_to_path_commands` returns the empty string on the empty
list; on `p :: ps` it returns the move-to command for `p` followed by one
space-separated line-to command per point of `ps`; every coordinate is
formatted with exactly two fractional digits; and the single point (0, 0.0)
serializes to "M 0.00,0.00". -/
theorem path_commands_spec :
    points_to_path_commands [] = "" ∧
      (∀ (p : ℝ × ℝ) (ps : List (ℝ × ℝ)),
        points_to_path_commands (p :: ps) =
          "M " ++ fmt2 p.1 ++ "," ++ fmt2 p.2 ++
            joinSep " " (ps.map (fun q => "L " ++ fmt2 q.1 ++ "," ++ fmt2 q.2))) ∧
      (∀ x : ℝ, ∃ (s : String) (k : ℕ), k < 100 ∧
        fmt2 x = s ++ "." ++ pad2 k ∧ (pad2 k).length = 2) ∧
      points_to_path_commands [((0 : ℝ), (0 : ℝ))] = "M 0.00,0.00" := by
  refine ⟨rfl, fun p ps => ?_, fmt2_shape, ?_⟩
  · simp only [points_to_path_commands]
    exact intercalate_cons " " _ _
  · simp only [points_to_path_commands, List.map_nil, fmt2_zero,
      String.intercalate, String.intercalate.go]
    decide

theorem path_commands_length_pos (p : ℝ × ℝ) (ps : List (ℝ × ℝ)) :
    0 < (points_to_path_commands (p :: ps)).length := by
  simp only [points_to_path_commands]
  rw [intercalate_cons]
  simp only [String.length_append]
  have hM : ("M " : String).length = 2 := rfl
  omega

theorem path_commands_ne_empty (p : ℝ × ℝ) (ps : List (ℝ × ℝ)) :
    points_to_path_commands (p :: ps) ≠ "" := by
  intro hs
  have h := path_commands_length_pos p ps
  rw [hs] at h
  exact absurd h (by decide)

theorem svg_row_line_isSome (cfg : ConversionConfig) (grid : ℕ → ℕ → ℕ)
    (width row : ℕ) (hw : 1 ≤ width) :
    ∃ s, svg_row_line cfg grid width row = some s := by
  have hne := generate_row_path_ne_nil cfg grid row width hw
  rcases hp : generate_row_path cfg grid row width with _ | ⟨p, ps⟩
  · exact absurd hp hne
  · refine ⟨"    <path d=\"" ++ points_to_path_commands (p :: ps) ++ "\"/>", ?_⟩
    simp [svg_row_line, hp, path_commands_ne_empty p ps]

theorem length_filterMap_of_isSome {α β : Type} (f : α → Option β)
    (l : List α) (h : ∀ a ∈ l, ∃ b, f a = some b) :
    (l.filterMap f).length = l.length := by
  induction l with
  | nil => rfl
  | cons a l ih =>
      rcases h a (List.mem_cons_self a l) with ⟨b, hb⟩
      rw [List.filterMap_cons, hb]
      simp [ih (fun x hx => h x (List.mem_cons_of_mem a hx))]

/-- C8: for every grid of width W ≥ 1, height H and every config, the
assembled document declares a canvas height serialized from exactly
H × lineSpacing, and the number of path elements is ≤ H, with equality
whenever W ≥ 1. -/
theorem svg_document_shape (cfg : ConversionConfig) (grid : ℕ → ℕ → ℕ)
    (width height : ℕ) :
    (∃ pre post : String, generate_svg cfg grid width height =
      pre ++ fmt2 ((height : ℝ) * cfg.line_spacing) ++ post) ∧
      (svg_path_lines cfg grid width height).length ≤ height ∧
      (1 ≤ width → (svg_path_lines cfg grid width height).length = height) := by
  refine ⟨?_, ?_, ?_⟩
  · refine ⟨"<?xml version=\"1.0\" encoding=\"UTF-8\"?>" ++ "\n" ++
      ("<svg xmlns=\"http://www.w3.org/2000/svg\" width=\"" ++ toString width ++
        "\" height=\"" ++ fmt2 ((height : ℝ) * cfg.line_spacing) ++
        "\" viewBox=\"0 0 " ++ toString width ++ " "),
      "\">" ++ "\n" ++
        ("  <g id=\"polargraph-paths\" stroke=\"black\" stroke-width=\"0.5\" " ++
          "fill=\"none\" stroke-linecap=\"round\" stroke-linejoin=\"round\">") ++
        joinSep "\n"
          (svg_path_lines cfg grid width height ++ ["  </g>", "</svg>"]), ?_⟩
    rw [generate_svg]
    simp only [svg_header, List.cons_append, List.nil_append]
    rw [intercalate_cons]
    simp only [joinSep, String.append_assoc]
  · have h := List.length_filterMap_le (svg_row_line cfg grid width)
      (List.range height)
    simpa [svg_path_lines] using h
  · intro hw
    have h := length_filterMap_of_isSome (svg_row_line cfg grid width)
      (List.range height)
      (fun r _ => svg_row_line_isSome cfg grid width r hw)
    simpa [svg_path_lines] using h

theorem svg_document_shape_witness :
    (svg_path_lines cfgPlain gridBlack 1 2).length = 2 :=
  (svg_document_shape cfgPlain gridBlack 1 2).2.2 (by norm_num)

theorem row_step_congr (cfg : ConversionConfig) (grid grid2 : ℕ → ℕ → ℕ)
    (row x : ℕ) (points : List (ℝ × ℝ)) (h : grid x row = grid2 x row) :
    row_step cfg grid row points x = row_step cfg grid2 row points x := by
  simp only [row_step, h]

theorem generate_row_path_congr (cfg : ConversionConfig)
    (grid grid2 : ℕ → ℕ → ℕ) (row width : ℕ)
    (hg : ∀ x, x < width → grid x row = grid2 x row) :
    generate_row_path cfg grid row width =
      generate_row_path cfg grid2 row width := by
  unfold generate_row_path
  refine List.foldl_ext _ _ _ ?_
  intro points x hx
  exact row_step_congr cfg grid grid2 row x points
    (hg x (List.mem_range.mp hx))

/-- C10: the conversion is deterministic — two runs on pixel grids that
agree on the converted W × H window, with equal configurations, produce
byte-identical output documents. -/
theorem conversion_deterministic (cfg cfg2 : ConversionConfig)
    (grid grid2 : ℕ → ℕ → ℕ) (width height : ℕ) (hc : cfg = cfg2)
    (hg : ∀ x, x < width → ∀ y, y < height → grid x y = grid2 x y) :
    generate_svg cfg grid width height = generate_svg cfg2 grid2 width height := by
  subst hc
  have hrows : svg_path_lines cfg grid width height =
      svg_path_lines cfg grid2 width height := by
    unfold svg_path_lines
    refine List.filterMap_congr ?_
    intro r hr
    have hrlt : r < height := List.mem_range.mp hr
    unfold svg_row_line
    rw [generate_row_path_congr cfg grid grid2 r width
      (fun x hx => hg x hx r hrlt)]

  unfold generate_svg
  rw [hrows]

def gridSeventeen : ℕ → ℕ → ℕ := fun x y => if x = 0 ∧ y = 0 then 0 else 17

theorem conversion_deterministic_witness :
    generate_svg cfgPlain gridBlack 1 1 =
      generate_svg cfgPlain gridSeventeen 1 1 :=
  conversion_deterministic cfgPlain cfgPlain gridBlack gridSeventeen 1 1 rfl
    (by decide)

end Polargraph
